import Mathlib

/-!
Shallow embedding of the JWE compact-serialization encryption pipeline of
`src/lib/jose-jwe-encrypt.js` (js-jose).  The file models:

* the legacy `JoseJWE.prototype.encryptPlaintext` content encryptor
  (AEAD split and composite encrypt-then-MAC paths, lines 216-315);
* the `Encrypter` class pipeline (header building, CEK policy selection,
  serialization, lines 24-141).

Bytes are `List Nat` (each element a JS `Uint8Array` cell, `< 256` whenever
produced by the embedded code).  Promises are modelled as plain values;
promise rejection is `Except String`.  The platform crypto provider
(`crypto.subtle`, `WebCryptographer`) and the `jose-utils` helpers are not
under `src/`; they are modelled from the spec as explicitly documented on
each such definition.
-/

namespace Jose

/-- Modelled from the spec: `Utils.arrayFromString` (jose-utils is not under
src/) — "utf8ToBytes"-style conversion taking each character's char code,
i.e. the raw ASCII bytes of the string (§4.2: "its raw byte representation
(ASCII encoding of the base64url text)"). -/
def arrayFromString (s : String) : List Nat :=
  s.data.map Char.toNat

/-- Modelled from the spec: the base64url alphabet used by the missing
`Base64Url` encoder ("base64urlEncode(bytes) -> string", RFC 4648 §5:
`A-Z a-z 0-9 - _`, no padding). -/
def b64Alphabet : List Char :=
  ['A', 'B', 'C', 'D', 'E', 'F', 'G', 'H', 'I', 'J', 'K', 'L', 'M',
   'N', 'O', 'P', 'Q', 'R', 'S', 'T', 'U', 'V', 'W', 'X', 'Y', 'Z',
   'a', 'b', 'c', 'd', 'e', 'f', 'g', 'h', 'i', 'j', 'k', 'l', 'm',
   'n', 'o', 'p', 'q', 'r', 's', 't', 'u', 'v', 'w', 'x', 'y', 'z',
   '0', '1', '2', '3', '4', '5', '6', '7', '8', '9', '-', '_']

/-- Character for a 6-bit group. -/
def b64Char (n : Nat) : Char :=
  b64Alphabet.getD (n % 64) 'A'

/-- Modelled from the spec: `Base64Url.encodeArray` (jose-utils is not under
src/) — standard base64 over the byte list, using the url-safe alphabet,
with the `=` padding stripped. -/
def base64UrlEncodeBytes : List Nat → List Char
  | [] => []
  | [b1] =>
      [b64Char (b1 / 4), b64Char (b1 % 4 * 16)]
  | [b1, b2] =>
      [b64Char (b1 / 4), b64Char (b1 % 4 * 16 + b2 / 16), b64Char (b2 % 16 * 4)]
  | b1 :: b2 :: b3 :: rest =>
      b64Char (b1 / 4) :: b64Char (b1 % 4 * 16 + b2 / 16) ::
        b64Char (b2 % 16 * 4 + b3 / 64) :: b64Char (b3 % 64) ::
        base64UrlEncodeBytes rest

/-- Modelled from the spec: `Base64Url.encode` on a string — encode the
string's char-code bytes (`btoa` semantics with the url-safe alphabet). -/
def base64UrlEncode (s : String) : String :=
  String.mk (base64UrlEncodeBytes (arrayFromString s))

/-- Base64url encoding of a byte array, as a `String`
(`Base64Url.encodeArray` / `encodeArrayBuffer`). -/
def base64UrlEncodeArr (bs : List Nat) : String :=
  String.mk (base64UrlEncodeBytes bs)

/-- Modelled from the spec: `Utils.arrayFromInt32` (jose-utils is not under
src/) serializes a 32-bit integer as 4 bytes.  The spec mandates that the
composed AL value be big-endian "regardless of host endianness"; together
with the explicit byte reversal at src lines 296-299 this fixes the missing
serializer as least-significant byte first. -/
def arrayFromInt32 (i : Nat) : List Nat :=
  [i % 256, i / 256 % 256, i / 65536 % 256, i / 16777216 % 256]

/-- The AL construction of src lines 295-299: a zeroed 8-byte array whose
cells `7-i` receive byte `i` of `arrayFromInt32 (aadLen * 8)`. -/
def alBigEndian (aadLen : Nat) : List Nat :=
  let al := arrayFromInt32 (aadLen * 8)
  [0, 0, 0, 0, al.getD 3 0, al.getD 2 0, al.getD 1 0, al.getD 0 0]

/-- Specification-side definition: `n` encoded as exactly 8 big-endian
bytes. -/
def bigEndian8 (n : Nat) : List Nat :=
  [n / 2 ^ 56 % 256, n / 2 ^ 48 % 256, n / 2 ^ 40 % 256, n / 2 ^ 32 % 256,
   n / 2 ^ 24 % 256, n / 2 ^ 16 % 256, n / 2 ^ 8 % 256, n % 256]

/-- AAD derivation (src lines 77 and 230): the AAD is the char-code bytes of
the base64url-encoded protected header string. -/
def aadFromHeader (jweProtectedHeader : String) : List Nat :=
  arrayFromString jweProtectedHeader

/-- Modelled from the spec: `JSON.stringify` of the fixed two-field header
object of src lines 218-221 (field order `alg` then `enc`). -/
def jsonAlgEnc (alg enc : String) : String :=
  "\x7b\"alg\":\"" ++ alg ++ "\",\"enc\":\"" ++ enc ++ "\"\x7d"

/-- Content-encryption cipher identifier (`config.id`): WebCrypto algorithm
name and key bit length. -/
structure AlgId where
  name : String
  length : Nat
  deriving DecidableEq

/-- Authentication part of the content-encryption configuration
(`config.auth`): AEAD flag, AEAD tag length (bits), MAC algorithm
identifier, MAC key size (bits) and truncated tag length (bits). -/
structure AuthConfig where
  aead : Bool
  tag_length : Nat
  id : String
  key_size : Nat
  truncated_length : Nat
  deriving DecidableEq

/-- Content-encryption configuration (`this.content_encryption`). -/
structure ContentEncryption where
  jwe_name : String
  id : AlgId
  iv_length : Nat
  auth : AuthConfig
  deriving DecidableEq

/-- Modelled from the spec: the platform crypto provider (`crypto.subtle`,
not part of this repository), §6 collaborator interface.  `κ` is the opaque
`CryptoKey` handle type.  `aeadEncrypt` takes algorithm name, IV, AAD, tag
bit length, key and plaintext and returns the combined
ciphertext-plus-appended-tag output; `encrypt` is the non-authenticated
cipher; `sign` is the MAC; `importKey` takes raw bytes, an algorithm
identifier and the usage list. -/
structure SubtleCrypto (κ : Type) where
  aeadEncrypt : String → List Nat → List Nat → Nat → κ → List Nat → List Nat
  encrypt : String → List Nat → κ → List Nat → List Nat
  sign : String → κ → List Nat → List Nat
  exportKey : κ → List Nat
  importKey : List Nat → String → List String → κ

/-- The record resolved by `JoseJWE.prototype.encryptPlaintext`. -/
structure EncResult where
  header : String
  iv : List Nat
  cipher : List Nat
  tag : List Nat
  deriving DecidableEq

/-- The MAC-key half of the composite CEK split (src lines 267-273):
reject unless the exported CEK bit length is `config.id.length +
config.auth.key_size`, then import the first `key_size/8` bytes for
signing. -/
def macKeyOf (cfg : ContentEncryption) (s : SubtleCrypto κ) (cek_bytes : List Nat) :
    Except String κ :=
  if cek_bytes.length * 8 ≠ cfg.id.length + cfg.auth.key_size then
    .error "encryptPlaintext: incorrect cek length"
  else
    .ok (s.importKey (cek_bytes.take (cfg.auth.key_size / 8)) cfg.auth.id ["sign"])

/-- The encryption-key half of the composite CEK split (src lines 274-280):
same length check, then import the remaining bytes for encryption. -/
def encKeyOf (cfg : ContentEncryption) (s : SubtleCrypto κ) (cek_bytes : List Nat) :
    Except String κ :=
  if cek_bytes.length * 8 ≠ cfg.id.length + cfg.auth.key_size then
    .error "encryptPlaintext: incorrect cek length"
  else
    .ok (s.importKey (cek_bytes.drop (cfg.auth.key_size / 8)) cfg.id.name ["encrypt"])

/-- Embedding of `JoseJWE.prototype.encryptPlaintext` (src lines 216-315):
header construction, IV length check, AAD derivation, then either the AEAD
branch (encrypt and split off the trailing `tag_length/8` bytes) or the
composite branch (split the CEK, encrypt, MAC `aad || iv || ciphertext ||
al` and truncate). -/
def encryptPlaintext (cfg : ContentEncryption) (s : SubtleCrypto κ)
    (key_encryption_jwe_name : String) (iv : List Nat) (cek : κ)
    (plain_text : String) : Except String EncResult :=
  let jwe_protected_header := base64UrlEncode (jsonAlgEnc key_encryption_jwe_name cfg.jwe_name)
  if iv.length ≠ cfg.iv_length then
    .error "encryptPlaintext: invalid IV length"
  else
    let aad := arrayFromString jwe_protected_header
    let pt := arrayFromString plain_text
    if cfg.auth.aead then
      if cfg.auth.tag_length % 8 ≠ 0 then
        .error "encryptPlaintext: invalid tag_length"
      else
        let cipher_text := s.aeadEncrypt cfg.id.name iv aad cfg.auth.tag_length cek pt
        let offset := cipher_text.length - cfg.auth.tag_length / 8
        .ok ⟨jwe_protected_header, iv, cipher_text.take offset, cipher_text.drop offset⟩
    else
      if cfg.auth.truncated_length % 8 ≠ 0 then
        .error "encryptPlaintext: invalid truncated HMAC length"
      else
        let cek_bytes := s.exportKey cek
        match macKeyOf cfg s cek_bytes, encKeyOf cfg s cek_bytes with
        | .error e, _ => .error e
        | .ok _, .error e => .error e
        | .ok mac_key, .ok enc_key =>
          let cipher_text := s.encrypt cfg.id.name iv enc_key pt
          let buf := aad ++ iv ++ cipher_text ++ alBigEndian aad.length
          let mac := s.sign cfg.auth.id mac_key buf
          .ok ⟨jwe_protected_header, iv, cipher_text,
               mac.take (cfg.auth.truncated_length / 8)⟩

/-- JS object assignment `h[k] = v` on an insertion-ordered string map:
update the value in place when the key exists, append otherwise
(`Encrypter.addHeader`, src lines 44-46, and the assignments of src
lines 66-70). -/
def objSet (h : List (String × String)) (k v : String) : List (String × String) :=
  if h.any (fun kv => decide (kv.1 = k)) then
    h.map (fun kv => if kv.1 = k then (kv.1, v) else kv)
  else
    h ++ [(k, v)]

/-- Lookup of a key in the insertion-ordered header map. -/
def getHeader : List (String × String) → String → Option String
  | [], _ => none
  | kv :: rest, k => if kv.1 = k then some kv.2 else getHeader rest k

/-- Header construction of `Encrypter.encrypt` (src lines 64-70): copy the
user headers, then assign `alg` and `enc`. -/
def buildHeaders (userHeaders : List (String × String)) (alg enc : String) :
    List (String × String) :=
  objSet (objSet userHeaders "alg" alg) "enc" enc

/-- Modelled from the spec: `JSON.stringify` of an insertion-ordered
string-to-string object (well-formed values, §4.1). -/
def jsonStringify (h : List (String × String)) : String :=
  "\x7b" ++
    String.intercalate "," (h.map (fun kv => "\"" ++ kv.1 ++ "\":\"" ++ kv.2 ++ "\"")) ++
    "\x7d"

/-- The pieces returned by the cryptographer's combined encrypt operation. -/
structure CipherTag where
  cipher : List Nat
  tag : List Nat
  deriving DecidableEq

/-- Modelled from the spec: the `WebCryptographer` collaborator consumed by
the `Encrypter` class (not under src/) — algorithm identifiers, IV and CEK
creation, the combined content-encryption operation (IV, AAD, CEK,
plaintext to ciphertext and tag) and CEK wrapping (CEK, wrapping key to
wrapped bytes). -/
structure Cryptographer (κ : Type) where
  getKeyEncryptionAlgorithm : String
  getContentEncryptionAlgorithm : String
  createIV : List Nat
  createCek : κ
  encrypt : List Nat → List Nat → κ → List Nat → CipherTag
  wrapCek : κ → κ → List Nat

/-- The protected header string built by `Encrypter.encrypt`
(src lines 64-71). -/
def protectedHeaderOf (c : Cryptographer κ) (userHeaders : List (String × String)) : String :=
  base64UrlEncode (jsonStringify
    (buildHeaders userHeaders c.getKeyEncryptionAlgorithm c.getContentEncryptionAlgorithm))

/-- CEK selection of `Encrypter.encrypt` (src lines 89-104): under `dir` the
recipient key itself; otherwise the preset CEK when given, else a fresh
one. -/
def cekOf (c : Cryptographer κ) (keyPromise : κ) (presetCEK : Option κ) : κ :=
  if c.getKeyEncryptionAlgorithm = "dir" then keyPromise
  else
    match presetCEK with
    | none => c.createCek
    | some p => p

/-- Wrapped-CEK bytes of `Encrypter.encrypt` (src lines 89-112): empty under
`dir`, otherwise the wrap of the selected CEK under the recipient key. -/
def encryptedCekOf (c : Cryptographer κ) (keyPromise : κ) (presetCEK : Option κ) : List Nat :=
  if c.getKeyEncryptionAlgorithm = "dir" then []
  else c.wrapCek (cekOf c keyPromise presetCEK) keyPromise

/-- Embedding of `Encrypter.encrypt` (src lines 55-128): build the header,
derive the AAD from it, select the CEK, encrypt, and serialize the five
base64url segments joined by periods. -/
def Encrypter.encrypt (c : Cryptographer κ) (keyPromise : κ)
    (userHeaders : List (String × String)) (uint8Array : List Nat)
    (presetCEK : Option κ) : String :=
  let jweProtectedHeader := protectedHeaderOf c userHeaders
  let iv := c.createIV
  let aad := aadFromHeader jweProtectedHeader
  let r := c.encrypt iv aad (cekOf c keyPromise presetCEK) uint8Array
  jweProtectedHeader ++ "." ++
    base64UrlEncodeArr (encryptedCekOf c keyPromise presetCEK) ++ "." ++
    base64UrlEncodeArr iv ++ "." ++
    base64UrlEncodeArr r.cipher ++ "." ++
    base64UrlEncodeArr r.tag

/-! Concrete fixtures used to exercise the model on closed inputs. -/

/-- A concrete crypto provider over `Nat` key handles. -/
def sNat : SubtleCrypto Nat where
  aeadEncrypt := fun _ _ _ _ _ pt => pt ++ [1, 2]
  encrypt := fun _ _ _ pt => pt
  sign := fun _ _ _ => List.replicate 32 5
  exportKey := fun k => List.replicate 32 (k % 256)
  importKey := fun bytes _ _ => bytes.length

/-- A concrete AEAD content-encryption configuration (16-bit tag for
compactness of the closed computations). -/
def cfgAead : ContentEncryption :=
  ⟨"A128GCM", ⟨"AES-GCM", 128⟩, 2, ⟨true, 16, "", 0, 0⟩⟩

/-- A concrete composite configuration: 128-bit cipher key plus 128-bit MAC
key, matching the 32-byte exported CEK of `sNat`. -/
def cfgComp : ContentEncryption :=
  ⟨"A128CBC-HS256", ⟨"AES-CBC", 128⟩, 2, ⟨false, 0, "HMAC", 128, 128⟩⟩

/-- A composite configuration whose expected CEK bit length (128 + 64)
disagrees with the 256-bit exported CEK of `sNat`. -/
def cfgCompBad : ContentEncryption :=
  ⟨"A128CBC-HS256", ⟨"AES-CBC", 128⟩, 2, ⟨false, 0, "HMAC", 64, 128⟩⟩

/-- A concrete cryptographer under direct key management; its tag records
the CEK handle it was given, so the outputs distinguish CEK choices. -/
def cryptoDir : Cryptographer Nat where
  getKeyEncryptionAlgorithm := "dir"
  getContentEncryptionAlgorithm := "A128GCM"
  createIV := [9, 9]
  createCek := 4
  encrypt := fun _ _ cek pt => ⟨pt, [cek]⟩
  wrapCek := fun cek key => [cek, key]

/-- An AEAD configuration whose tag length is not a multiple of 8. -/
def cfgAeadBadTag : ContentEncryption :=
  ⟨"A128GCM", ⟨"AES-GCM", 128⟩, 2, ⟨true, 12, "", 0, 0⟩⟩

/-- A composite configuration whose truncated length is not a multiple
of 8. -/
def cfgCompBadTrunc : ContentEncryption :=
  ⟨"A128CBC-HS256", ⟨"AES-CBC", 128⟩, 2, ⟨false, 0, "HMAC", 128, 12⟩⟩

/-- A concrete alternative wrap function. -/
def wOther : Nat → Nat → List Nat := fun _ _ => [1]

/-! Helper lemmas about the base64url alphabet and the header map. -/

/-- Every emitted base64url character is in the alphabet. -/
theorem b64Char_mem (n : Nat) : b64Char n ∈ b64Alphabet := by
  have h64 : n % 64 < 64 := Nat.mod_lt _ (by norm_num)
  have h : n % 64 < b64Alphabet.length := by simpa [b64Alphabet] using h64
  rw [b64Char, List.getD_eq_getElem?_getD, List.getElem?_eq_getElem h]
  exact List.getElem_mem h

/-- The base64url alphabet never produces the segment separator. -/
theorem b64Char_ne_dot (n : Nat) : b64Char n ≠ '.' := by
  intro h
  have hm := b64Char_mem n
  rw [h] at hm
  exact absurd hm (by decide)

/-- The separator is never equal to an alphabet character. -/
theorem dot_ne_b64Char (n : Nat) : ¬ '.' = b64Char n :=
  fun h => b64Char_ne_dot n h.symm

/-- No period occurs in a base64url encoding. -/
theorem dot_notMem_base64UrlEncodeBytes (bs : List Nat) :
    '.' ∉ base64UrlEncodeBytes bs := by
  induction bs using base64UrlEncodeBytes.induct with
  | case1 => simp [base64UrlEncodeBytes]
  | case2 b1 => simp [base64UrlEncodeBytes, dot_ne_b64Char]
  | case3 b1 b2 => simp [base64UrlEncodeBytes, dot_ne_b64Char]
  | case4 b1 b2 b3 rest ih =>
      simp [base64UrlEncodeBytes, dot_ne_b64Char, ih]

/-- Period count of an encoded byte array is zero. -/
theorem count_dot_base64UrlEncodeArr (bs : List Nat) :
    (base64UrlEncodeArr bs).data.count '.' = 0 :=
  List.count_eq_zero.mpr (dot_notMem_base64UrlEncodeBytes bs)

/-- Period count of an encoded string is zero. -/
theorem count_dot_base64UrlEncode (s : String) :
    (base64UrlEncode s).data.count '.' = 0 :=
  List.count_eq_zero.mpr (dot_notMem_base64UrlEncodeBytes (arrayFromString s))

/-- `takeWhile` captures exactly the part before the first failing
element. -/
theorem takeWhile_append_of_not (p : Char → Bool) (xs : List Char) (y : Char)
    (ys : List Char) (hxs : ∀ x ∈ xs, p x = true) (hy : p y = false) :
    (xs ++ y :: ys).takeWhile p = xs := by
  induction xs with
  | nil => simp [List.takeWhile_cons, hy]
  | cons a l ih =>
      have ha : p a = true := hxs a (List.mem_cons_self a l)
      simp [List.takeWhile_cons, ha,
        ih (fun x hx => hxs x (List.mem_cons_of_mem a hx))]

/-- Updating an existing key makes it the retrieved value. -/
theorem getHeader_map_set (l : List (String × String)) (k v : String)
    (hl : l.any (fun kv => decide (kv.1 = k)) = true) :
    getHeader (l.map (fun kv => if kv.1 = k then (kv.1, v) else kv)) k = some v := by
  induction l with
  | nil => simp at hl
  | cons kv rest ih =>
      by_cases hc : kv.1 = k
      · simp [getHeader, hc]
      · have hr : rest.any (fun kv => decide (kv.1 = k)) = true := by
          simpa [List.any_cons, hc] using hl
        simp [getHeader, hc, ih hr]

/-- Appending a fresh key makes it the retrieved value. -/
theorem getHeader_append_single (l : List (String × String)) (k v : String)
    (hl : l.any (fun kv => decide (kv.1 = k)) = false) :
    getHeader (l ++ [(k, v)]) k = some v := by
  induction l with
  | nil => simp [getHeader]
  | cons kv rest ih =>
      have hc : ¬kv.1 = k := by
        intro h
        simp [List.any_cons, h] at hl
      have hr : rest.any (fun kv => decide (kv.1 = k)) = false := by
        simpa [List.any_cons, hc] using hl
      simp [getHeader, hc, ih hr]

/-- After `objSet l k v`, looking up `k` yields `v`. -/
theorem getHeader_objSet_self (l : List (String × String)) (k v : String) :
    getHeader (objSet l k v) k = some v := by
  unfold objSet
  by_cases h : l.any (fun kv => decide (kv.1 = k)) = true
  · simp only [h, if_true]
    exact getHeader_map_set l k v h
  · have hf : l.any (fun kv => decide (kv.1 = k)) = false := Bool.eq_false_iff.mpr h
    simp only [hf, Bool.false_eq_true, if_false]
    exact getHeader_append_single l k v hf

/-- The in-place update at key `k` does not disturb lookups of other keys. -/
theorem getHeader_map_set_ne (l : List (String × String)) (k v k' : String)
    (hk : k' ≠ k) :
    getHeader (l.map (fun kv => if kv.1 = k then (kv.1, v) else kv)) k' =
      getHeader l k' := by
  induction l with
  | nil => rfl
  | cons kv rest ih =>
      by_cases hc : kv.1 = k
      · have hkk : ¬k = k' := fun he => hk he.symm
        simp [getHeader, hc, hkk, ih]
      · simp [getHeader, hc, ih]

/-- Appending at key `k` does not disturb lookups of other keys. -/
theorem getHeader_append_single_ne (l : List (String × String)) (k v k' : String)
    (hk : k' ≠ k) : getHeader (l ++ [(k, v)]) k' = getHeader l k' := by
  induction l with
  | nil => simp [getHeader, Ne.symm hk]
  | cons kv rest ih => simp [getHeader, ih]

/-- `objSet` at key `k` does not disturb lookups of other keys. -/
theorem getHeader_objSet_of_ne (l : List (String × String)) (k v k' : String)
    (hk : k' ≠ k) : getHeader (objSet l k v) k' = getHeader l k' := by
  unfold objSet
  by_cases h : l.any (fun kv => decide (kv.1 = k)) = true
  · simp only [h, if_true]
    exact getHeader_map_set_ne l k v k' hk
  · have hf : l.any (fun kv => decide (kv.1 = k)) = false := Bool.eq_false_iff.mpr h
    simp only [hf, Bool.false_eq_true, if_false]
    exact getHeader_append_single_ne l k v k' hk

/-! The claim theorems. -/

/-- C1: in composite (encrypt-then-MAC) mode, the AL field appended to the
MAC input buffer equals the bit length of the AAD (8 times its byte length)
encoded as exactly 8 big-endian bytes, for every AAD within the 32-bit
range enforced by `arrayFromInt32`, with no dependence on any host byte
order. -/
theorem al_is_bigEndian_bit_length (aad : List Nat)
    (h : 8 * aad.length < 2 ^ 32) :
    alBigEndian aad.length = bigEndian8 (8 * aad.length) := by
  have h' : 8 * aad.length < 4294967296 := by
    calc 8 * aad.length < 2 ^ 32 := h
    _ = 4294967296 := by norm_num
  simp only [alBigEndian, arrayFromInt32, bigEndian8, List.getD_cons_zero,
    List.getD_cons_succ]
  norm_num
  omega

/-- C1 witness: a concrete three-byte AAD. -/
theorem al_is_bigEndian_bit_length_witness :
    8 * ([104, 105, 33] : List Nat).length < 2 ^ 32 ∧
    alBigEndian ([104, 105, 33] : List Nat).length =
      bigEndian8 (8 * ([104, 105, 33] : List Nat).length) :=
  ⟨by norm_num, al_is_bigEndian_bit_length [104, 105, 33] (by norm_num)⟩

/-- C7: validation is eager — an IV of the wrong length, a tag length not a
multiple of 8 (AEAD mode) or a truncated length not a multiple of 8
(composite mode) each make `encryptPlaintext` fail with the corresponding
rejection, with a result that does not depend on the crypto provider `s`
(so no cipher or MAC primitive can influence, and none is needed to
produce, the failure). -/
theorem eager_validation (cfg : ContentEncryption) (s : SubtleCrypto κ)
    (kname : String) (iv : List Nat) (cek : κ) (plain_text : String) :
    (iv.length ≠ cfg.iv_length →
       encryptPlaintext cfg s kname iv cek plain_text =
         .error "encryptPlaintext: invalid IV length") ∧
    (iv.length = cfg.iv_length → cfg.auth.aead = true →
       cfg.auth.tag_length % 8 ≠ 0 →
       encryptPlaintext cfg s kname iv cek plain_text =
         .error "encryptPlaintext: invalid tag_length") ∧
    (iv.length = cfg.iv_length → cfg.auth.aead = false →
       cfg.auth.truncated_length % 8 ≠ 0 →
       encryptPlaintext cfg s kname iv cek plain_text =
         .error "encryptPlaintext: invalid truncated HMAC length") := by
  refine ⟨fun h1 => ?_, fun h1 h2 h3 => ?_, fun h1 h2 h3 => ?_⟩
  · simp [encryptPlaintext, h1]
  · simp [encryptPlaintext, h1, h2, h3]
  · simp [encryptPlaintext, h1, h2, h3]

/-- C7 witness: the three rejections at concrete inputs. -/
theorem eager_validation_witness :
    encryptPlaintext cfgAead sNat "RSA-OAEP" [9] 3 "hi" =
      .error "encryptPlaintext: invalid IV length" ∧
    encryptPlaintext cfgAeadBadTag sNat "RSA-OAEP" [9, 9] 3 "hi" =
      .error "encryptPlaintext: invalid tag_length" ∧
    encryptPlaintext cfgCompBadTrunc sNat "RSA-OAEP" [9, 9] 3 "hi" =
      .error "encryptPlaintext: invalid truncated HMAC length" :=
  ⟨(eager_validation cfgAead sNat "RSA-OAEP" [9] 3 "hi").1 (by decide),
   (eager_validation cfgAeadBadTag sNat "RSA-OAEP" [9, 9] 3 "hi").2.1
     rfl rfl (by decide),
   (eager_validation cfgCompBadTrunc sNat "RSA-OAEP" [9, 9] 3 "hi").2.2
     rfl rfl (by decide)⟩

/-- C8: for every set of caller-supplied header fields, the protected
header mapping carries `alg` equal to the key-management algorithm and
`enc` equal to the content-encryption algorithm, overwriting caller
entries of the same names. -/
theorem header_alg_enc_forced (c : Cryptographer κ)
    (userHeaders : List (String × String)) :
    getHeader (buildHeaders userHeaders c.getKeyEncryptionAlgorithm
        c.getContentEncryptionAlgorithm) "alg" =
      some c.getKeyEncryptionAlgorithm ∧
    getHeader (buildHeaders userHeaders c.getKeyEncryptionAlgorithm
        c.getContentEncryptionAlgorithm) "enc" =
      some c.getContentEncryptionAlgorithm := by
  constructor
  · unfold buildHeaders
    rw [getHeader_objSet_of_ne _ _ _ _ (by decide)]
    exact getHeader_objSet_self _ _ _
  · exact getHeader_objSet_self _ _ _

/-- C10: under direct key management, the `presetCEK` argument has no
effect on the result of `Encrypter.encrypt`. -/
theorem presetCEK_no_effect_dir (c : Cryptographer κ) (keyPromise : κ)
    (userHeaders : List (String × String)) (uint8Array : List Nat)
    (p1 p2 : Option κ) (h : c.getKeyEncryptionAlgorithm = "dir") :
    Encrypter.encrypt c keyPromise userHeaders uint8Array p1 =
      Encrypter.encrypt c keyPromise userHeaders uint8Array p2 := by
  simp [Encrypter.encrypt, cekOf, encryptedCekOf, h]

/-- C10 witness: two runs differing only in the preset CEK coincide. -/
theorem presetCEK_no_effect_dir_witness :
    Encrypter.encrypt cryptoDir 3 [] [7] none =
      Encrypter.encrypt cryptoDir 3 [] [7] (some 5) :=
  presetCEK_no_effect_dir cryptoDir 3 [] [7] none (some 5) rfl

/-- C2: in AEAD mode the combined primitive output is split into the
ciphertext (all but the last `tag_length/8` bytes) and the tag (the
trailing `tag_length/8` bytes); under the AEAD convention that the
combined output is plaintext length plus `tag_length/8`, the tag is
exactly `tag_length/8` bytes, the ciphertext is exactly plaintext length,
and the two concatenate back to the combined output. -/
theorem aead_split (cfg : ContentEncryption) (s : SubtleCrypto κ)
    (kname : String) (iv : List Nat) (cek : κ) (plain_text : String)
    (combined : List Nat)
    (hc : combined = s.aeadEncrypt cfg.id.name iv
        (aadFromHeader (base64UrlEncode (jsonAlgEnc kname cfg.jwe_name)))
        cfg.auth.tag_length cek (arrayFromString plain_text))
    (hmode : cfg.auth.aead = true)
    (hiv : iv.length = cfg.iv_length)
    (htag : cfg.auth.tag_length % 8 = 0)
    (hlen : combined.length =
      (arrayFromString plain_text).length + cfg.auth.tag_length / 8) :
    encryptPlaintext cfg s kname iv cek plain_text =
      .ok ⟨base64UrlEncode (jsonAlgEnc kname cfg.jwe_name), iv,
           combined.take (combined.length - cfg.auth.tag_length / 8),
           combined.drop (combined.length - cfg.auth.tag_length / 8)⟩ ∧
    (combined.drop (combined.length - cfg.auth.tag_length / 8)).length =
      cfg.auth.tag_length / 8 ∧
    (combined.take (combined.length - cfg.auth.tag_length / 8)).length =
      (arrayFromString plain_text).length ∧
    combined.take (combined.length - cfg.auth.tag_length / 8) ++
      combined.drop (combined.length - cfg.auth.tag_length / 8) = combined := by
  subst hc
  refine ⟨?_, ?_, ?_, List.take_append_drop _ _⟩
  · simp [encryptPlaintext, hiv, hmode, htag, aadFromHeader]
  · rw [List.length_drop]
    omega
  · rw [List.length_take]
    omega

/-- C2 witness: a concrete AEAD run with a two-byte tag. -/
theorem aead_split_witness :
    encryptPlaintext cfgAead sNat "RSA-OAEP" [9, 9] 3 "hi" =
      .ok ⟨base64UrlEncode (jsonAlgEnc "RSA-OAEP" "A128GCM"), [9, 9],
           [104, 105], [1, 2]⟩ ∧
    ([1, 2] : List Nat).length = 2 ∧
    ([104, 105] : List Nat).length = 2 ∧
    ([104, 105] : List Nat) ++ [1, 2] = [104, 105, 1, 2] :=
  aead_split cfgAead sNat "RSA-OAEP" [9, 9] 3 "hi" [104, 105, 1, 2]
    rfl rfl rfl rfl rfl

/-- C3: in composite mode, when the exported CEK bit length disagrees with
`config.id.length + config.auth.key_size` the call fails with the fatal
cek-length rejection; when it agrees, the MAC key is imported from exactly
the first `key_size/8` bytes and the encryption key from exactly the
remaining bytes of the raw CEK, the two parts reassembling the raw CEK. -/
theorem composite_cek_split (cfg : ContentEncryption) (s : SubtleCrypto κ)
    (kname : String) (iv : List Nat) (cek : κ) (plain_text : String)
    (cek_bytes : List Nat) (hb : cek_bytes = s.exportKey cek)
    (hmode : cfg.auth.aead = false)
    (hiv : iv.length = cfg.iv_length)
    (htr : cfg.auth.truncated_length % 8 = 0) :
    (cek_bytes.length * 8 ≠ cfg.id.length + cfg.auth.key_size →
       encryptPlaintext cfg s kname iv cek plain_text =
         .error "encryptPlaintext: incorrect cek length") ∧
    (cek_bytes.length * 8 = cfg.id.length + cfg.auth.key_size →
       macKeyOf cfg s cek_bytes =
         .ok (s.importKey (cek_bytes.take (cfg.auth.key_size / 8))
           cfg.auth.id ["sign"]) ∧
       encKeyOf cfg s cek_bytes =
         .ok (s.importKey (cek_bytes.drop (cfg.auth.key_size / 8))
           cfg.id.name ["encrypt"]) ∧
       (cek_bytes.take (cfg.auth.key_size / 8)).length =
         cfg.auth.key_size / 8 ∧
       cek_bytes.take (cfg.auth.key_size / 8) ++
         cek_bytes.drop (cfg.auth.key_size / 8) = cek_bytes) := by
  subst hb
  constructor
  · intro hne
    have hm : macKeyOf cfg s (s.exportKey cek) =
        .error "encryptPlaintext: incorrect cek length" := by
      simp [macKeyOf, hne]
    simp [encryptPlaintext, hiv, hmode, htr, hm]
  · intro he
    refine ⟨?_, ?_, ?_, List.take_append_drop _ _⟩
    · simp [macKeyOf, he]
    · simp [encKeyOf, he]
    · rw [List.length_take]
      omega

/-- C3 witness: a mismatched configuration rejects and a matched one
splits a 32-byte CEK into two 16-byte keys. -/
theorem composite_cek_split_witness :
    encryptPlaintext cfgCompBad sNat "RSA-OAEP" [9, 9] 3 "hi" =
      .error "encryptPlaintext: incorrect cek length" ∧
    (macKeyOf cfgComp sNat (sNat.exportKey 3) = .ok 16 ∧
     encKeyOf cfgComp sNat (sNat.exportKey 3) = .ok 16 ∧
     ((sNat.exportKey 3).take 16).length = 16 ∧
     (sNat.exportKey 3).take 16 ++ (sNat.exportKey 3).drop 16 =
       sNat.exportKey 3) :=
  ⟨(composite_cek_split cfgCompBad sNat "RSA-OAEP" [9, 9] 3 "hi"
      (sNat.exportKey 3) rfl rfl rfl (by decide)).1 (by decide),
   (composite_cek_split cfgComp sNat "RSA-OAEP" [9, 9] 3 "hi"
      (sNat.exportKey 3) rfl rfl rfl (by decide)).2 (by decide)⟩

/-- C5: in composite mode the authentication tag equals the leading
`truncated_length/8` bytes of the MAC computed with the MAC key over
`AAD || IV || ciphertext || AL`, and (when the MAC output is long enough)
the tag is exactly `truncated_length/8` bytes. -/
theorem composite_tag_truncated_mac (cfg : ContentEncryption)
    (s : SubtleCrypto κ) (kname : String) (iv : List Nat) (cek : κ)
    (plain_text : String)
    (hdr : String) (hh : hdr = base64UrlEncode (jsonAlgEnc kname cfg.jwe_name))
    (aad : List Nat) (ha : aad = aadFromHeader hdr)
    (mac_key : κ)
    (hmk : mac_key = s.importKey ((s.exportKey cek).take
      (cfg.auth.key_size / 8)) cfg.auth.id ["sign"])
    (enc_key : κ)
    (hek : enc_key = s.importKey ((s.exportKey cek).drop
      (cfg.auth.key_size / 8)) cfg.id.name ["encrypt"])
    (cipher_text : List Nat)
    (hct : cipher_text = s.encrypt cfg.id.name iv enc_key
      (arrayFromString plain_text))
    (mac : List Nat)
    (hm : mac = s.sign cfg.auth.id mac_key
      (aad ++ iv ++ cipher_text ++ alBigEndian aad.length))
    (hmode : cfg.auth.aead = false)
    (hiv : iv.length = cfg.iv_length)
    (htr : cfg.auth.truncated_length % 8 = 0)
    (hcek : (s.exportKey cek).length * 8 = cfg.id.length + cfg.auth.key_size)
    (hmac : cfg.auth.truncated_length / 8 ≤ mac.length) :
    encryptPlaintext cfg s kname iv cek plain_text =
      .ok ⟨hdr, iv, cipher_text, mac.take (cfg.auth.truncated_length / 8)⟩ ∧
    (mac.take (cfg.auth.truncated_length / 8)).length =
      cfg.auth.truncated_length / 8 := by
  subst hh ha hmk hek hct hm
  constructor
  · simp [encryptPlaintext, hiv, hmode, htr, macKeyOf, encKeyOf, hcek,
      aadFromHeader]
  · rw [List.length_take]
    omega

/-- Character-level decomposition of the serialized output (helper shared
by the serializer claims). -/
theorem encrypt_data_eq (c : Cryptographer κ) (keyPromise : κ)
    (userHeaders : List (String × String)) (uint8Array : List Nat)
    (presetCEK : Option κ) :
    (Encrypter.encrypt c keyPromise userHeaders uint8Array presetCEK).data =
      (protectedHeaderOf c userHeaders).data ++ '.' ::
        ((base64UrlEncodeArr (encryptedCekOf c keyPromise presetCEK)).data ++ '.' ::
          ((base64UrlEncodeArr c.createIV).data ++ '.' ::
            ((base64UrlEncodeArr (c.encrypt c.createIV
                (aadFromHeader (protectedHeaderOf c userHeaders))
                (cekOf c keyPromise presetCEK) uint8Array).cipher).data ++ '.' ::
              (base64UrlEncodeArr (c.encrypt c.createIV
                (aadFromHeader (protectedHeaderOf c userHeaders))
                (cekOf c keyPromise presetCEK) uint8Array).tag).data))) := by
  have hdot : (".").data = ['.'] := rfl
  simp [Encrypter.encrypt, String.data_append, hdot]

/-- C4: the AAD handed to the content-encryption primitive equals the
char-code (ASCII) bytes of the base64url-encoded protected header string,
which is exactly the first period-delimited segment of the output — and on
a concrete header it differs from the bytes of the decoded JSON header. -/
theorem aad_is_encoded_header (c : Cryptographer κ) (keyPromise : κ)
    (userHeaders : List (String × String)) (uint8Array : List Nat)
    (presetCEK : Option κ) :
    Encrypter.encrypt c keyPromise userHeaders uint8Array presetCEK =
      protectedHeaderOf c userHeaders ++ "." ++
        base64UrlEncodeArr (encryptedCekOf c keyPromise presetCEK) ++ "." ++
        base64UrlEncodeArr c.createIV ++ "." ++
        base64UrlEncodeArr (c.encrypt c.createIV
          (aadFromHeader (protectedHeaderOf c userHeaders))
          (cekOf c keyPromise presetCEK) uint8Array).cipher ++ "." ++
        base64UrlEncodeArr (c.encrypt c.createIV
          (aadFromHeader (protectedHeaderOf c userHeaders))
          (cekOf c keyPromise presetCEK) uint8Array).tag ∧
    (Encrypter.encrypt c keyPromise userHeaders uint8Array presetCEK).data.takeWhile
        (fun ch => ch != '.') = (protectedHeaderOf c userHeaders).data ∧
    aadFromHeader (protectedHeaderOf c userHeaders) =
      ((Encrypter.encrypt c keyPromise userHeaders uint8Array
          presetCEK).data.takeWhile (fun ch => ch != '.')).map Char.toNat ∧
    aadFromHeader (protectedHeaderOf cryptoDir [("kid", "1")]) ≠
      arrayFromString (jsonStringify (buildHeaders [("kid", "1")] "dir" "A128GCM")) := by
  have hseg : (Encrypter.encrypt c keyPromise userHeaders uint8Array
      presetCEK).data.takeWhile (fun ch => ch != '.') =
      (protectedHeaderOf c userHeaders).data := by
    rw [encrypt_data_eq c keyPromise userHeaders uint8Array presetCEK]
    refine takeWhile_append_of_not _ _ _ _ ?_ (by decide)
    intro x hx
    exact bne_iff_ne.mpr
      (fun he => dot_notMem_base64UrlEncodeBytes _ (he ▸ hx))
  refine ⟨rfl, hseg, ?_, by decide⟩
  rw [hseg]
  rfl

/-- C6: under direct key management the CEK handed to the content
encryptor is the recipient key itself, the wrapped-key bytes are empty (an
empty second segment), and the output is unchanged under any replacement
of the wrap function — no wrap operation contributes to the result. -/
theorem dir_uses_recipient_key (c : Cryptographer κ) (keyPromise : κ)
    (userHeaders : List (String × String)) (uint8Array : List Nat)
    (presetCEK : Option κ) (w : κ → κ → List Nat)
    (h : c.getKeyEncryptionAlgorithm = "dir") :
    cekOf c keyPromise presetCEK = keyPromise ∧
    encryptedCekOf c keyPromise presetCEK = [] ∧
    Encrypter.encrypt c keyPromise userHeaders uint8Array presetCEK =
      protectedHeaderOf c userHeaders ++ "." ++ "" ++ "." ++
        base64UrlEncodeArr c.createIV ++ "." ++
        base64UrlEncodeArr (c.encrypt c.createIV
          (aadFromHeader (protectedHeaderOf c userHeaders))
          keyPromise uint8Array).cipher ++ "." ++
        base64UrlEncodeArr (c.encrypt c.createIV
          (aadFromHeader (protectedHeaderOf c userHeaders))
          keyPromise uint8Array).tag ∧
    Encrypter.encrypt { c with wrapCek := w } keyPromise userHeaders
        uint8Array presetCEK =
      Encrypter.encrypt c keyPromise userHeaders uint8Array presetCEK := by
  refine ⟨?_, ?_, ?_, ?_⟩ <;>
    simp [Encrypter.encrypt, cekOf, encryptedCekOf, protectedHeaderOf, h,
      base64UrlEncodeArr, base64UrlEncodeBytes]

/-- C6 witness: a concrete direct-mode run. -/
theorem dir_uses_recipient_key_witness :
    cekOf cryptoDir 3 (some 5) = 3 ∧
    encryptedCekOf cryptoDir 3 (some 5) = [] ∧
    Encrypter.encrypt cryptoDir 3 [("kid", "1")] [7, 8] (some 5) =
      protectedHeaderOf cryptoDir [("kid", "1")] ++ "." ++ "" ++ "." ++
        base64UrlEncodeArr cryptoDir.createIV ++ "." ++
        base64UrlEncodeArr (cryptoDir.encrypt cryptoDir.createIV
          (aadFromHeader (protectedHeaderOf cryptoDir [("kid", "1")]))
          3 [7, 8]).cipher ++ "." ++
        base64UrlEncodeArr (cryptoDir.encrypt cryptoDir.createIV
          (aadFromHeader (protectedHeaderOf cryptoDir [("kid", "1")]))
          3 [7, 8]).tag ∧
    Encrypter.encrypt { cryptoDir with wrapCek := wOther } 3 [("kid", "1")]
        [7, 8] (some 5) =
      Encrypter.encrypt cryptoDir 3 [("kid", "1")] [7, 8] (some 5) :=
  dir_uses_recipient_key cryptoDir 3 [("kid", "1")] [7, 8] (some 5) wOther rfl

/-- C9: the returned string is exactly the base64url encodings of the
header bytes, wrapped-key bytes, IV bytes, ciphertext bytes and tag bytes,
in that order, joined by periods — and since base64url never emits a
period, the output contains exactly four periods (five segments). -/
theorem serialization_five_segments (c : Cryptographer κ) (keyPromise : κ)
    (userHeaders : List (String × String)) (uint8Array : List Nat)
    (presetCEK : Option κ) :
    Encrypter.encrypt c keyPromise userHeaders uint8Array presetCEK =
      base64UrlEncode (jsonStringify (buildHeaders userHeaders
          c.getKeyEncryptionAlgorithm c.getContentEncryptionAlgorithm)) ++ "." ++
        base64UrlEncodeArr (encryptedCekOf c keyPromise presetCEK) ++ "." ++
        base64UrlEncodeArr c.createIV ++ "." ++
        base64UrlEncodeArr (c.encrypt c.createIV
          (aadFromHeader (protectedHeaderOf c userHeaders))
          (cekOf c keyPromise presetCEK) uint8Array).cipher ++ "." ++
        base64UrlEncodeArr (c.encrypt c.createIV
          (aadFromHeader (protectedHeaderOf c userHeaders))
          (cekOf c keyPromise presetCEK) uint8Array).tag ∧
    (Encrypter.encrypt c keyPromise userHeaders uint8Array
        presetCEK).data.count '.' = 4 := by
  refine ⟨rfl, ?_⟩
  rw [encrypt_data_eq c keyPromise userHeaders uint8Array presetCEK]
  simp [List.count_append, List.count_cons, protectedHeaderOf,
    count_dot_base64UrlEncode, count_dot_base64UrlEncodeArr]

/-- C5 witness: a concrete composite run, whose 32-byte MAC output is
truncated to 16 bytes. -/
theorem composite_tag_truncated_mac_witness :
    encryptPlaintext cfgComp sNat "RSA-OAEP" [9, 9] 3 "hi" =
      .ok ⟨base64UrlEncode (jsonAlgEnc "RSA-OAEP" "A128CBC-HS256"), [9, 9],
           [104, 105], List.replicate 16 5⟩ ∧
    (List.replicate 16 5 : List Nat).length = 16 :=
  composite_tag_truncated_mac cfgComp sNat "RSA-OAEP" [9, 9] 3 "hi"
    (base64UrlEncode (jsonAlgEnc "RSA-OAEP" "A128CBC-HS256")) rfl
    (aadFromHeader (base64UrlEncode (jsonAlgEnc "RSA-OAEP" "A128CBC-HS256"))) rfl
    16 rfl 16 rfl [104, 105] rfl (List.replicate 32 5) rfl
    rfl rfl rfl (by decide) (by decide)

end Jose
